import Mathlib

/-!
Verification of the task-management application (Assignment-Penthara).

The development shallowly embeds the backend controllers
(`src/backend/src/controllers/authController.ts`,
`src/backend/src/controllers/taskController.ts`) and the client-side
view logic (`TaskList.tsx` grouping, `DashboardPage` aggregation, the
`TasksPage` search filter).

Modelling conventions:
* JavaScript strings are `List Char`; JS falsiness of a string is
  emptiness, and an absent (`undefined`/`null`) value is `Option.none`.
* Calendar dates (local midnight `Date` values obtained from
  `parseDateOnly` / `new Date(...).setHours(0,0,0,0)`) are `Int` day
  numbers under the proleptic-Gregorian day count `daysFromCivil`;
  comparing two such `Date`s by timestamp is exactly comparing day
  numbers.  `setDate(getDate() + 7)` adds 7 to the day number and
  `setMonth(getMonth() + 1)` maps day `(y, m, d)` to
  `daysFromCivil y (m+1) d` (the JS overflow normalisation is built
  into `daysFromCivil`, which treats month 13 of year `y` like
  January of year `y+1` and day overflow as day arithmetic).
* The SQL store is a list of rows; `WHERE` clauses are filters,
  `UPDATE ... RETURNING`/`rowCount` follow the affected-row list.
* `bcrypt.hash` / `bcrypt.compare` and `uuidv4` are abstracted as
  function-typed parameters of the embedded endpoints.
-/

/-! ### JS string primitives on lists of characters -/

/-- JS `String.prototype.toLowerCase` (basic-latin part), per character. -/
def jsToLower (l : List Char) : List Char :=
  l.map Char.toLower

/-- JS `String.prototype.trim`: drop whitespace from both ends. -/
def jsTrim (l : List Char) : List Char :=
  ((l.dropWhile Char.isWhitespace).reverse.dropWhile Char.isWhitespace).reverse

/-- Does the second list start with the first one? -/
def startsWithL : List Char → List Char → Bool
  | [], _ => true
  | _ :: _, [] => false
  | a :: as, b :: bs => a == b && startsWithL as bs

/-- JS `String.prototype.includes`: the needle (first argument) occurs
contiguously inside the haystack (second argument). -/
def containsL : List Char → List Char → Bool
  | needle, [] => needle.isEmpty
  | needle, c :: rest => startsWithL needle (c :: rest) || containsL needle rest

/-! ### Calendar arithmetic (JS `Date`, day-number form) -/

/-- Gregorian leap-year test. -/
def isLeap (y : Int) : Bool :=
  (y % 4 == 0 && y % 100 != 0) || y % 400 == 0

/-- One on leap years, zero otherwise. -/
def leapN (y : Int) : Int :=
  if isLeap y then 1 else 0

/-- Length of month `m` (1–12) of year `y`. -/
def daysInMonth (y m : Int) : Int :=
  if m = 2 then 28 + leapN y
  else if m = 4 ∨ m = 6 ∨ m = 9 ∨ m = 11 then 30
  else 31

/-- Days of year `y` that precede month `m`; month 13 is accepted and
treated as one full year (this makes `setMonth` overflow work out). -/
def daysBeforeMonth (y m : Int) : Int :=
  if m ≤ 1 then 0
  else if m = 2 then 31
  else if m = 3 then 59 + leapN y
  else if m = 4 then 90 + leapN y
  else if m = 5 then 120 + leapN y
  else if m = 6 then 151 + leapN y
  else if m = 7 then 181 + leapN y
  else if m = 8 then 212 + leapN y
  else if m = 9 then 243 + leapN y
  else if m = 10 then 273 + leapN y
  else if m = 11 then 304 + leapN y
  else if m = 12 then 334 + leapN y
  else 365 + leapN y

/-- Rata-die day number of the civil date `(y, m, d)` (day 0 is
0001-01-01); monotone encoding of local-midnight JS `Date` values.
Month 13 and day overflow normalise exactly as `new Date(y, m, d)`
does. -/
def daysFromCivil (y m d : Int) : Int :=
  365 * (y - 1) + (y - 1) / 4 - (y - 1) / 100 + (y - 1) / 400
    + daysBeforeMonth y m + (d - 1)

example : daysFromCivil 2026 10 12 - daysFromCivil 2026 10 11 = 1 := by decide
example : daysFromCivil 2026 13 5 = daysFromCivil 2027 1 5 := by decide
example : daysFromCivil 2024 2 29 - daysFromCivil 2024 2 28 = 1 := by decide
example : daysFromCivil 2025 3 1 - daysFromCivil 2025 2 28 = 1 := by decide

/-! ### Data model -/

/-- A row of the `tasks` table (`initDb` in `config/database.ts`).
`dueDate` is the parsed calendar date as a day number (`none` = SQL
`NULL`), matching the `DATE` column; `description` is nullable. -/
structure TaskRow where
  id : List Char
  userId : List Char
  title : List Char
  description : Option (List Char)
  dueDate : Option Int
  priority : List Char
  completed : Bool
deriving DecidableEq, Repr

/-- A row of the `users` table. -/
structure DbUser where
  id : List Char
  name : List Char
  email : List Char
  password : List Char
deriving DecidableEq, Repr

/-- The public user record returned by `register`/`login` (no password). -/
structure PubUser where
  id : List Char
  name : List Char
  email : List Char
deriving DecidableEq, Repr

/-- An HTTP response of an embedded endpoint: an error with status code
and JSON message body, or a success with status code and payload. -/
inductive ApiResp (α : Type) where
  | err (status : Nat) (message : List Char)
  | ok (status : Nat) (payload : α)
deriving DecidableEq, Repr

/-! ### Auth controller (`authController.ts`) -/

/-- Embeds `normalizeEmail` from `authController.ts`: trim, then lowercase. -/
def normalizeEmail (email : List Char) : List Char :=
  jsToLower (jsTrim email)

/-- Embeds `register` from `authController.ts`.  `hash` abstracts
`bcrypt.hash` and `newId` the generated `uuidv4()`; the result pairs
the HTTP response with the users table after the request. -/
def register (hash : List Char → List Char) (newId : List Char)
    (name email password : List Char) (users : List DbUser) :
    ApiResp PubUser × List DbUser :=
  if name = [] ∨ email = [] ∨ password = [] then
    (.err 400 ("Name, email, and password required").data, users)
  else
    let cleanEmail := normalizeEmail email
    if (users.filter (fun u => u.email == cleanEmail)).length > 0 then
      (.err 409 ("Email already registered").data, users)
    else
      let user : DbUser :=
        ⟨newId, jsTrim name, cleanEmail, hash password⟩
      (.ok 201 ⟨user.id, user.name, user.email⟩, users ++ [user])

/-- Embeds `login` from `authController.ts`.  `checkPw raw stored` abstracts
`bcrypt.compare`. -/
def login (checkPw : List Char → List Char → Bool)
    (email password : List Char) (users : List DbUser) : ApiResp PubUser :=
  if email = [] ∨ password = [] then
    .err 400 ("Email and password required").data
  else
    let cleanEmail := normalizeEmail email
    match users.find? (fun u => u.email == cleanEmail) with
    | none => .err 401 ("Invalid email or password").data
    | some user =>
      if checkPw password user.password then
        .ok 200 ⟨user.id, user.name, user.email⟩
      else
        .err 401 ("Invalid email or password").data

/-! ### Task controller (`taskController.ts`) -/

/-- The request body of `POST /api/tasks`.  Each field is `none` when
absent from the JSON body.  `dueDate` distinguishes an empty string
(`some none`) from a parseable date string for day `n`
(`some (some n)`). -/
structure CreateBody where
  title : Option (List Char)
  description : Option (List Char)
  dueDate : Option (Option Int)
  priority : Option (List Char)
deriving Repr

/-- The request body of `PUT /api/tasks/:id`, same conventions. -/
structure UpdateBody where
  title : Option (List Char)
  description : Option (List Char)
  dueDate : Option (Option Int)
  priority : Option (List Char)
  completed : Option Bool
deriving Repr

/-- JS truthiness of an optional string: `undefined`, `null` and the
empty string are falsy. -/
def truthy : Option (List Char) → Bool
  | none => false
  | some s => !s.isEmpty

/-- Models `x || null` on a due-date input followed by the `::date` cast:
absent and empty-string inputs become SQL `NULL`. -/
def dueOrNull : Option (Option Int) → Option Int
  | none => none
  | some none => none
  | some (some n) => some n

/-- Embeds `createTask` from `taskController.ts`; `newId` abstracts
`uuidv4()`. -/
def createTask (userId newId : List Char) (b : CreateBody)
    (tasks : List TaskRow) : ApiResp TaskRow × List TaskRow :=
  if !truthy b.title then
    (.err 400 ("Title is required").data, tasks)
  else
    let row : TaskRow :=
      { id := newId
        userId := userId
        title := b.title.getD []
        description := if truthy b.description then b.description else none
        dueDate := dueOrNull b.dueDate
        priority := if truthy b.priority then b.priority.getD [] else ("medium").data
        completed := false }
    (.ok 201 row, tasks ++ [row])

/-- The `WHERE id = $i AND user_id = $j` condition shared by update,
delete and toggle. -/
def rowMatch (id userId : List Char) (t : TaskRow) : Bool :=
  t.id == id && t.userId == userId

/-- The `SET` clause of `updateTask`: `COALESCE` keeps the stored value
whenever the bound parameter is SQL `NULL` (i.e. the body field is
absent), except that `due_date = $3::date` is assigned
unconditionally from `dueDate || null`. -/
def applyUpdate (b : UpdateBody) (t : TaskRow) : TaskRow :=
  { t with
    title := b.title.getD t.title
    description := match b.description with
      | none => t.description
      | some v => some v
    dueDate := dueOrNull b.dueDate
    priority := b.priority.getD t.priority
    completed := b.completed.getD t.completed }

/-- Embeds `updateTask` from `taskController.ts`: update all rows matching
`(id, userId)`, 404 when `rowCount` is zero, otherwise return the
first updated row. -/
def updateTask (userId id : List Char) (b : UpdateBody)
    (tasks : List TaskRow) : ApiResp TaskRow × List TaskRow :=
  match tasks.filter (rowMatch id userId) with
  | [] => (.err 404 ("Task not found").data, tasks)
  | r :: _ =>
    (.ok 200 (applyUpdate b r),
     tasks.map (fun t => if rowMatch id userId t then applyUpdate b t else t))

/-- Embeds `deleteTask` from `taskController.ts`. -/
def deleteTask (userId id : List Char) (tasks : List TaskRow) :
    ApiResp Unit × List TaskRow :=
  match tasks.filter (rowMatch id userId) with
  | [] => (.err 404 ("Task not found").data, tasks)
  | _ :: _ =>
    (.ok 204 (), tasks.filter (fun t => !rowMatch id userId t))

/-- Models `SET completed = NOT completed` applied to one row. -/
def negateRow (t : TaskRow) : TaskRow :=
  { t with completed := !t.completed }

/-- Embeds `toggleTaskCompletion` from `taskController.ts`: the server negates
the stored flag in place on every row matching `(id, userId)`. -/
def toggleTask (userId id : List Char) (tasks : List TaskRow) :
    ApiResp TaskRow × List TaskRow :=
  match tasks.filter (rowMatch id userId) with
  | [] => (.err 404 ("Task not found").data, tasks)
  | r :: _ =>
    (.ok 200 (negateRow r),
     tasks.map (fun t => if rowMatch id userId t then negateRow t else t))

/-! ### Client-side task view (`TaskList.tsx`, `TasksPage`, dashboard) -/

/-- A task as held by the client (`Task` in `taskService.ts`).
`dueDate` is the local calendar date produced by `parseDateOnly`
(day-number form); `none` covers both an absent and an unparseable
due-date string, and both are routed to the No-Date group exactly as
in the source. -/
structure CTask where
  id : List Char
  title : List Char
  description : Option (List Char)
  dueDate : Option Int
  priority : List Char
  completed : Bool
deriving DecidableEq, Repr

/-- The five display groups of `groupedTasks` in `TaskList.tsx`. -/
inductive Bucket where
  | today
  | thisWeek
  | thisMonth
  | later
  | noDate
deriving DecidableEq, Repr

/-- The per-task classification inside `groupedTasks`, with the three
precomputed boundary dates (`today`, `weekFromNow`, `monthFromNow`) as
day numbers. -/
def groupBucket (todayN weekN monthN : Int) (t : CTask) : Bucket :=
  match t.dueDate with
  | none => .noDate
  | some dueN =>
    if dueN = todayN then .today
    else if todayN < dueN ∧ dueN ≤ weekN then .thisWeek
    else if weekN < dueN ∧ dueN ≤ monthN then .thisMonth
    else .later

/-- The `groupedTasks` boundary computation for a concrete local date
`(y, m, d)`: `today` at midnight, `setDate(+7)` and `setMonth(+1)`. -/
def groupBucketOn (y m d : Int) (t : CTask) : Bucket :=
  groupBucket (daysFromCivil y m d) (daysFromCivil y m d + 7)
    (daysFromCivil y (m + 1) d) t

/-- The search filter of `TasksPage`: when the query has non-whitespace
content, keep a task iff the lowercased query occurs in the lowercased
title, or the description is truthy and contains it; otherwise keep
everything. -/
def searchFilterTasks (q : List Char) (tasks : List CTask) : List CTask :=
  tasks.filter (fun t =>
    if jsTrim q ≠ [] then
      let query := jsToLower q
      containsL query (jsToLower t.title) ||
        match t.description with
        | none => false
        | some d => !d.isEmpty && containsL query (jsToLower d)
    else true)

/-- The dashboard `dueToday` statistic: pending tasks whose parsed due
date equals today's local date. -/
def dueTodayCount (todayN : Int) (tasks : List CTask) : Nat :=
  (tasks.filter (fun t =>
    match t.dueDate with
    | none => false
    | some dueN => if t.completed then false else dueN == todayN)).length

/-- The dashboard sort comparator on tasks (`dateA.getTime() -
dateB.getTime()`, missing dates last), in `≤`-form: `dueLe a b` means
the comparator does not put `a` strictly after `b`. -/
def dueLe (a b : CTask) : Bool :=
  match a.dueDate, b.dueDate with
  | none, none => true
  | none, some _ => false
  | some _, none => true
  | some x, some y => x ≤ y

/-- The dashboard `nextDueTask`: pending tasks that have a due date,
sorted by due date ascending, first element. -/
def nextDueTask (tasks : List CTask) : Option CTask :=
  (List.mergeSort (tasks.filter (fun t => t.dueDate.isSome && !t.completed))
    dueLe).head?

/-! ### Helper lemmas -/

theorem toNat_char_ofNat (n : Nat) (h : n < 55296) : (Char.ofNat n).toNat = n := by
  rw [Char.ofNat, dif_pos (Or.inl h)]
  rfl

theorem char_eq_iff_toNat (c d : Char) : c = d ↔ c.toNat = d.toNat := by
  constructor
  · rintro rfl; rfl
  · intro h
    exact Char.ext (UInt32.toNat.inj h)

theorem isWhitespace_iff (c : Char) :
    c.isWhitespace = true ↔
      (c.toNat = 32 ∨ c.toNat = 9 ∨ c.toNat = 13 ∨ c.toNat = 10) := by
  simp only [Char.isWhitespace, Bool.or_eq_true, decide_eq_true_eq]
  rw [char_eq_iff_toNat c ' ', char_eq_iff_toNat c '\t',
    char_eq_iff_toNat c '\r', char_eq_iff_toNat c '\n']
  show _ ↔ _ ∨ _ ∨ _ ∨ _
  tauto

/-- Lowercasing maps no character into or out of the whitespace set. -/
theorem isWhitespace_toLower (c : Char) :
    (Char.toLower c).isWhitespace = c.isWhitespace := by
  unfold Char.toLower
  simp only []
  by_cases h : c.toNat ≥ 65 ∧ c.toNat ≤ 90
  · rw [if_pos h]
    have h1 : (Char.ofNat (c.toNat + 32)).toNat = c.toNat + 32 :=
      toNat_char_ofNat _ (by omega)
    have lhs : (Char.ofNat (c.toNat + 32)).isWhitespace = false := by
      rw [Bool.eq_false_iff]
      intro hw
      rcases (isWhitespace_iff _).mp hw with h2 | h2 | h2 | h2 <;> omega
    have rhs : c.isWhitespace = false := by
      rw [Bool.eq_false_iff]
      intro hw
      rcases (isWhitespace_iff _).mp hw with h2 | h2 | h2 | h2 <;> omega
    rw [lhs, rhs]
  · rw [if_neg h]

/-- The trimmed string is empty exactly when every character is
whitespace. -/
theorem jsTrim_eq_nil_iff (l : List Char) :
    jsTrim l = [] ↔ ∀ c ∈ l, c.isWhitespace := by
  unfold jsTrim
  rw [List.reverse_eq_nil_iff, List.dropWhile_eq_nil_iff]
  constructor
  · intro h c hc
    rcases (List.mem_append.mp
        ((List.takeWhile_append_dropWhile (p := Char.isWhitespace)
          (l := l)) ▸ hc)) with h1 | h1
    · exact List.mem_takeWhile_imp h1
    · exact h c (List.mem_reverse.mpr h1)
  · intro h c hc
    exact h c ((List.dropWhile_sublist _).mem (List.mem_reverse.mp hc))

/-- Whitespace-only-ness is invariant under `toLowerCase`. -/
theorem jsTrim_lower_nil (q q' : List Char) (h : jsToLower q = jsToLower q') :
    jsTrim q = [] → jsTrim q' = [] := by
  intro hq
  rw [jsTrim_eq_nil_iff] at hq ⊢
  intro c hc
  have hmem : Char.toLower c ∈ jsToLower q' := List.mem_map_of_mem _ hc
  rw [← h] at hmem
  rcases List.mem_map.mp hmem with ⟨a, ha, hac⟩
  have := hq a ha
  rw [← isWhitespace_toLower a, hac, isWhitespace_toLower c] at this
  exact this

theorem jsToLower_nil_iff (l : List Char) : jsToLower l = [] ↔ l = [] := by
  unfold jsToLower
  simp

/-- A non-empty needle is not contained in the empty string. -/
theorem containsL_nil (needle : List Char) (h : needle ≠ []) :
    containsL needle [] = false := by
  unfold containsL
  simpa using h

theorem leapN_nonneg (y : Int) : 0 ≤ leapN y := by
  unfold leapN
  split <;> omega

theorem leapN_le_one (y : Int) : leapN y ≤ 1 := by
  unfold leapN
  split <;> omega

/-- Every month has at least 28 days. -/
theorem daysInMonth_ge (y m : Int) : 28 ≤ daysInMonth y m := by
  have := leapN_nonneg y
  unfold daysInMonth
  split
  · omega
  · split <;> omega

/-- Cumulative month offsets step by the month length. -/
theorem daysBeforeMonth_succ (y m : Int) (h1 : 1 ≤ m) (h2 : m ≤ 12) :
    daysBeforeMonth y (m + 1) = daysBeforeMonth y m + daysInMonth y m := by
  interval_cases m <;>
    simp only [daysBeforeMonth, daysInMonth] <;> norm_num <;> omega

/-- Applying `setMonth(getMonth() + 1)` moves a calendar date forward by exactly
the length of its month. -/
theorem daysFromCivil_next_month (y m d : Int) (h1 : 1 ≤ m) (h2 : m ≤ 12) :
    daysFromCivil y (m + 1) d = daysFromCivil y m d + daysInMonth y m := by
  unfold daysFromCivil
  rw [daysBeforeMonth_succ y m h1 h2]
  ring

/-! ### Claim theorems -/

/-- C3: for a task whose due date is on or after today, `groupedTasks`
assigns exactly the bucket given by the stated ranges: today gives
Today, up to 7 days out gives This Week, up to a month out gives This
Month, later dates give Later; a task with no due date gives No Date;
in particular a task due exactly 7 days out is in This Week and one
due 8 days out is in This Month. -/
theorem grouping_assigns_stated_ranges (y m d : Int)
    (hm1 : 1 ≤ m) (hm2 : m ≤ 12) (_hd1 : 1 ≤ d) (_hd2 : d ≤ daysInMonth y m) :
    (∀ t : CTask, t.dueDate = none → groupBucketOn y m d t = .noDate) ∧
    (∀ (t : CTask) (dueN : Int), t.dueDate = some dueN →
      daysFromCivil y m d ≤ dueN →
      groupBucketOn y m d t =
        if dueN = daysFromCivil y m d then .today
        else if dueN ≤ daysFromCivil y m d + 7 then .thisWeek
        else if dueN ≤ daysFromCivil y (m + 1) d then .thisMonth
        else .later) ∧
    (∀ t : CTask, t.dueDate = some (daysFromCivil y m d + 7) →
      groupBucketOn y m d t = .thisWeek) ∧
    (∀ t : CTask, t.dueDate = some (daysFromCivil y m d + 8) →
      groupBucketOn y m d t = .thisMonth) := by
  have hmonth := daysFromCivil_next_month y m d hm1 hm2
  have hlen := daysInMonth_ge y m
  refine ⟨?_, ?_, ?_, ?_⟩
  · intro t ht
    simp [groupBucketOn, groupBucket, ht]
  · intro t dueN ht hge
    simp only [groupBucketOn, groupBucket, ht]
    split_ifs <;> first | rfl | omega
  · intro t ht
    simp only [groupBucketOn, groupBucket, ht]
    split_ifs <;> first | rfl | omega
  · intro t ht
    simp only [groupBucketOn, groupBucket, ht]
    split_ifs <;> first | rfl | omega

/-- Witness for `grouping_assigns_stated_ranges` at 2026-10-12. -/
theorem grouping_assigns_stated_ranges_witness :
    (1 ≤ (10 : Int) ∧ (10 : Int) ≤ 12 ∧ 1 ≤ (12 : Int) ∧
      (12 : Int) ≤ daysInMonth 2026 10) ∧
    (⟨("x").data, ("t").data, none, some (daysFromCivil 2026 10 12 + 8),
        ("low").data, false⟩ : CTask).dueDate
      = some (daysFromCivil 2026 10 12 + 8) ∧
    groupBucketOn 2026 10 12
      ⟨("x").data, ("t").data, none, some (daysFromCivil 2026 10 12 + 8),
        ("low").data, false⟩ = .thisMonth := by
  refine ⟨by decide, rfl, ?_⟩
  exact (grouping_assigns_stated_ranges 2026 10 12 (by decide) (by decide)
    (by decide) (by decide)).2.2.2 _ rfl

/-- C2 counterexample: on 2026-10-12 a pending task due 2026-10-11 (a
past-due task) is placed in the Later bucket, not left outside all
five buckets. -/
theorem pastdue_counterexample :
    daysFromCivil 2026 10 11 < daysFromCivil 2026 10 12 ∧
    groupBucketOn 2026 10 12
      ⟨("x").data, ("t").data, none, some (daysFromCivil 2026 10 11),
        ("low").data, false⟩ = .later := by
  constructor
  · decide
  · decide

/-- C2 (amended): a task whose due date is strictly before today falls
through the Today / This Week / This Month range tests and lands in
the final `else`, i.e. the Later bucket. -/
theorem pastdue_lands_in_later (y m d : Int) (t : CTask) (dueN : Int)
    (ht : t.dueDate = some dueN) (hpast : dueN < daysFromCivil y m d) :
    groupBucketOn y m d t = .later := by
  simp only [groupBucketOn, groupBucket, ht]
  split_ifs <;> first | rfl | omega

/-- Witness for `pastdue_lands_in_later` at 2026-10-12. -/
theorem pastdue_lands_in_later_witness :
    (⟨("y").data, ("t").data, none, some (daysFromCivil 2026 9 1),
        ("low").data, true⟩ : CTask).dueDate = some (daysFromCivil 2026 9 1) ∧
    daysFromCivil 2026 9 1 < daysFromCivil 2026 10 12 ∧
    groupBucketOn 2026 10 12
      ⟨("y").data, ("t").data, none, some (daysFromCivil 2026 9 1),
        ("low").data, true⟩ = .later := by
  refine ⟨rfl, by decide, ?_⟩
  exact pastdue_lands_in_later 2026 10 12 _ _ rfl (by decide)

theorem rowMatch_negateRow (id uid : List Char) (t : TaskRow) :
    rowMatch id uid (negateRow t) = rowMatch id uid t := rfl

theorem toggleStep_eq (uid id : List Char) (s : List TaskRow)
    (h : s.filter (rowMatch id uid) ≠ []) :
    (toggleTask uid id s).2 =
      s.map (fun t => if rowMatch id uid t then negateRow t else t) := by
  unfold toggleTask
  match hf : s.filter (rowMatch id uid) with
  | [] => exact absurd hf h
  | r :: rs => rfl

/-- C4: the toggle endpoint stores the negation of the last stored
completed flag for the addressed owned task, and running the toggle
twice maps any store back to itself (toggle is its own inverse). -/
theorem toggle_negates_and_is_involutive (uid id : List Char)
    (s : List TaskRow) (t : TaskRow)
    (hmem : t ∈ s) (hid : t.id = id) (huid : t.userId = uid) :
    negateRow t ∈ (toggleTask uid id s).2 ∧
    (negateRow t).completed = !t.completed ∧
    (toggleTask uid id (toggleTask uid id s).2).2 = s := by
  have hrm : rowMatch id uid t = true := by
    simp [rowMatch, hid, huid]
  have hfil : s.filter (rowMatch id uid) ≠ [] := by
    intro hnil
    have : t ∈ s.filter (rowMatch id uid) := List.mem_filter.mpr ⟨hmem, hrm⟩
    rw [hnil] at this
    exact absurd this (List.not_mem_nil t)
  have hstep := toggleStep_eq uid id s hfil
  have hcomp : ∀ u : TaskRow,
      rowMatch id uid (if rowMatch id uid u then negateRow u else u)
        = rowMatch id uid u := by
    intro u
    by_cases hu : rowMatch id uid u = true
    · rw [if_pos hu, rowMatch_negateRow]
    · rw [if_neg hu]
  have hfil2 : ((toggleTask uid id s).2).filter (rowMatch id uid) ≠ [] := by
    rw [hstep, List.filter_map]
    intro hnil
    rcases List.map_eq_nil_iff.mp hnil with hnil2
    have hcongr : s.filter
        ((rowMatch id uid) ∘ fun t => if rowMatch id uid t then negateRow t else t)
        = s.filter (rowMatch id uid) := by
      apply List.filter_congr
      intro u _
      exact hcomp u
    rw [hcongr] at hnil2
    exact hfil hnil2
  refine ⟨?_, rfl, ?_⟩
  · rw [hstep]
    have : (fun u => if rowMatch id uid u then negateRow u else u) t
        = negateRow t := by
      simp [hrm]
    exact this ▸ List.mem_map_of_mem _ hmem
  · rw [toggleStep_eq uid id _ hfil2, hstep, List.map_map]
    have : ∀ u : TaskRow,
        ((fun v => if rowMatch id uid v then negateRow v else v) ∘
         (fun v => if rowMatch id uid v then negateRow v else v)) u = u := by
      intro u
      by_cases hu : rowMatch id uid u = true
      · simp only [Function.comp, if_pos hu, rowMatch_negateRow, if_pos hu]
        simp [negateRow]
      · simp only [Function.comp, if_neg hu]
    rw [List.map_congr_left (fun u _ => this u)]
    exact List.map_id s

/-- Witness for `toggle_negates_and_is_involutive` on a one-row store. -/
theorem toggle_negates_and_is_involutive_witness :
    (⟨("a").data, ("u").data, ("T").data, none, none, ("low").data, false⟩ : TaskRow)
        ∈ [(⟨("a").data, ("u").data, ("T").data, none, none, ("low").data, false⟩ : TaskRow)] ∧
    negateRow ⟨("a").data, ("u").data, ("T").data, none, none, ("low").data, false⟩
        ∈ (toggleTask ("u").data ("a").data
            [⟨("a").data, ("u").data, ("T").data, none, none, ("low").data, false⟩]).2 ∧
    (toggleTask ("u").data ("a").data
      (toggleTask ("u").data ("a").data
        [⟨("a").data, ("u").data, ("T").data, none, none, ("low").data, false⟩]).2).2
      = [⟨("a").data, ("u").data, ("T").data, none, none, ("low").data, false⟩] := by
  have h := toggle_negates_and_is_involutive ("u").data ("a").data
    [⟨("a").data, ("u").data, ("T").data, none, none, ("low").data, false⟩]
    ⟨("a").data, ("u").data, ("T").data, none, none, ("low").data, false⟩
    (List.mem_singleton.mpr rfl) rfl rfl
  exact ⟨List.mem_singleton.mpr rfl, h.1, h.2.2⟩

/-- C7: the delete endpoint answers 404 and leaves the whole store
untouched whenever the caller owns no task with the requested id (in
particular when the task belongs to another user); when the caller
does own it, it answers 204 and the store afterwards consists exactly
of the rows that did not match, so the owned task is gone and no other
user's task is removed. -/
theorem delete_requires_ownership (uid id : List Char) (s : List TaskRow) :
    ((∀ t ∈ s, rowMatch id uid t = false) →
      deleteTask uid id s = (.err 404 ("Task not found").data, s)) ∧
    ((∃ t ∈ s, rowMatch id uid t = true) →
      (deleteTask uid id s).1 = .ok 204 ()) ∧
    (∀ t ∈ (deleteTask uid id s).2, rowMatch id uid t = false) ∧
    (∀ t ∈ s, rowMatch id uid t = false → t ∈ (deleteTask uid id s).2) := by
  refine ⟨?_, ?_, ?_, ?_⟩
  · intro hall
    unfold deleteTask
    have : s.filter (rowMatch id uid) = [] := by
      rw [List.filter_eq_nil_iff]
      intro t ht
      rw [hall t ht]
      exact Bool.false_ne_true
    rw [this]
  · rintro ⟨t, hmem, hrm⟩
    unfold deleteTask
    match hf : s.filter (rowMatch id uid) with
    | [] =>
      have : t ∈ s.filter (rowMatch id uid) := List.mem_filter.mpr ⟨hmem, hrm⟩
      rw [hf] at this
      exact absurd this (List.not_mem_nil t)
    | r :: rs => rfl
  · intro t ht
    unfold deleteTask at ht
    revert ht
    match hf : s.filter (rowMatch id uid) with
    | [] =>
      intro ht
      have hall : ∀ u ∈ s, rowMatch id uid u = false := by
        intro u hu
        by_cases h : rowMatch id uid u = true
        · have : u ∈ s.filter (rowMatch id uid) := List.mem_filter.mpr ⟨hu, h⟩
          rw [hf] at this
          exact absurd this (List.not_mem_nil u)
        · exact Bool.eq_false_iff.mpr h
      exact hall t ht
    | r :: rs =>
      intro ht
      have := (List.mem_filter.mp ht).2
      simpa using this
  · intro t ht hrf
    unfold deleteTask
    match hf : s.filter (rowMatch id uid) with
    | [] => exact ht
    | r :: rs =>
      exact List.mem_filter.mpr ⟨ht, by simp [hrf]⟩

/-- Witness for `delete_requires_ownership`: user `b` deleting user
`a`'s task gets 404 and the store is unchanged. -/
theorem delete_requires_ownership_witness :
    (∀ t ∈ [(⟨("x").data, ("a").data, ("T").data, none, none,
        ("low").data, false⟩ : TaskRow)],
      rowMatch ("x").data ("b").data t = false) ∧
    deleteTask ("b").data ("x").data
      [⟨("x").data, ("a").data, ("T").data, none, none, ("low").data, false⟩]
      = (.err 404 ("Task not found").data,
        [⟨("x").data, ("a").data, ("T").data, none, none, ("low").data, false⟩]) := by
  refine ⟨by decide, ?_⟩
  exact (delete_requires_ownership ("b").data ("x").data
    [⟨("x").data, ("a").data, ("T").data, none, none, ("low").data, false⟩]).1
    (by decide)

/-- C5: with non-empty email and password, a login that fails because
no account has the normalized email and a login that fails because the
stored credential does not match produce the same 401 response with a
byte-identical error payload. -/
theorem login_failures_indistinguishable
    (cp1 cp2 : List Char → List Char → Bool)
    (s1 s2 : List DbUser) (e1 p1 e2 p2 : List Char) (u : DbUser)
    (he1 : e1 ≠ []) (hp1 : p1 ≠ []) (he2 : e2 ≠ []) (hp2 : p2 ≠ [])
    (hnone : s1.find? (fun v => v.email == normalizeEmail e1) = none)
    (hsome : s2.find? (fun v => v.email == normalizeEmail e2) = some u)
    (hbad : cp2 p2 u.password = false) :
    login cp1 e1 p1 s1 = login cp2 e2 p2 s2 ∧
    login cp1 e1 p1 s1 = .err 401 ("Invalid email or password").data := by
  have h1 : login cp1 e1 p1 s1 = .err 401 ("Invalid email or password").data := by
    unfold login
    rw [if_neg (by simp [he1, hp1])]
    simp only [hnone]
  have h2 : login cp2 e2 p2 s2 = .err 401 ("Invalid email or password").data := by
    unfold login
    rw [if_neg (by simp [he2, hp2])]
    simp only [hsome, hbad]
    simp
  exact ⟨h1.trans h2.symm, h1⟩

/-- Witness for `login_failures_indistinguishable`: a store holding
only `ann@x.com`, queried for `bob@x.com` (absent) and for
`ann@x.com` with a rejected password. -/
theorem login_failures_indistinguishable_witness :
    login (fun _ _ => false) ("bob@x.com").data ("pw").data
        [⟨("1").data, ("Ann").data, ("ann@x.com").data, ("h").data⟩]
      = login (fun _ _ => false) ("ann@x.com").data ("pw").data
        [⟨("1").data, ("Ann").data, ("ann@x.com").data, ("h").data⟩] ∧
    login (fun _ _ => false) ("bob@x.com").data ("pw").data
        [⟨("1").data, ("Ann").data, ("ann@x.com").data, ("h").data⟩]
      = .err 401 ("Invalid email or password").data :=
  login_failures_indistinguishable (fun _ _ => false) (fun _ _ => false)
    [⟨("1").data, ("Ann").data, ("ann@x.com").data, ("h").data⟩]
    [⟨("1").data, ("Ann").data, ("ann@x.com").data, ("h").data⟩]
    ("bob@x.com").data ("pw").data ("ann@x.com").data ("pw").data
    ⟨("1").data, ("Ann").data, ("ann@x.com").data, ("h").data⟩
    (by decide) (by decide) (by decide) (by decide)
    (by decide) (by decide) rfl

/-- C6: registration answers 400 when name, email or password is
empty, answers 409 when the normalized (trimmed, lowercased) email is
already stored, and in both failure cases stores no new user; in
particular registering `Foo@x.com` and then `foo@x.com ` (trailing
space) fails the second time with 409. -/
theorem register_validation_and_conflict
    (hash : List Char → List Char) (newId : List Char)
    (name email password : List Char) (s : List DbUser) :
    ((name = [] ∨ email = [] ∨ password = []) →
      register hash newId name email password s
        = (.err 400 ("Name, email, and password required").data, s)) ∧
    (name ≠ [] → email ≠ [] → password ≠ [] →
      (∃ u ∈ s, u.email = normalizeEmail email) →
      register hash newId name email password s
        = (.err 409 ("Email already registered").data, s)) ∧
    (∀ (h2 : List Char → List Char) (i2 n1 p1 n2 p2 : List Char),
      n1 ≠ [] → p1 ≠ [] → n2 ≠ [] → p2 ≠ [] →
      register h2 i2 n2 ("foo@x.com ").data p2
          (register hash newId n1 ("Foo@x.com").data p1 []).2
        = (.err 409 ("Email already registered").data,
          (register hash newId n1 ("Foo@x.com").data p1 []).2)) := by
  refine ⟨?_, ?_, ?_⟩
  · intro h
    unfold register
    rw [if_pos h]
  · intro hn he hp ⟨u, hu, hemail⟩
    unfold register
    rw [if_neg (by simp [hn, he, hp])]
    rw [if_pos]
    have : u ∈ s.filter (fun v => v.email == normalizeEmail email) :=
      List.mem_filter.mpr ⟨hu, by simp [hemail]⟩
    have hlen := List.length_pos.mpr (List.ne_nil_of_mem this)
    omega
  · intro h2 i2 n1 p1 n2 p2 hn1 hp1 hn2 hp2
    have hstep : (register hash newId n1 ("Foo@x.com").data p1 []).2
        = [⟨newId, jsTrim n1, normalizeEmail ("Foo@x.com").data, hash p1⟩] := by
      unfold register
      rw [if_neg (by simp [hn1, hp1])]
      simp
    rw [hstep]
    unfold register
    rw [if_neg (by simp [hn2, hp2])]
    have hnorm : normalizeEmail ("foo@x.com ").data
        = normalizeEmail ("Foo@x.com").data := by decide
    have hpos : (List.filter (fun u => u.email == normalizeEmail ("foo@x.com ").data)
        [(⟨newId, jsTrim n1, normalizeEmail ("Foo@x.com").data, hash p1⟩ : DbUser)]).length
        > 0 := by
      rw [hnorm]
      simp
    rw [if_pos hpos]

/-- Witness for `register_validation_and_conflict`: duplicate
normalized email rejected with 409 and the store left as it was. -/
theorem register_validation_and_conflict_witness :
    (("Ann").data ≠ ([] : List Char) ∧ ("a@x.com").data ≠ ([] : List Char) ∧
      ("pw").data ≠ ([] : List Char) ∧
      (∃ u ∈ [(⟨("1").data, ("Ann").data, ("a@x.com").data, ("h").data⟩ : DbUser)],
        u.email = normalizeEmail ("a@x.com").data)) ∧
    register (fun p => p) ("2").data ("Ann").data ("a@x.com").data ("pw").data
        [⟨("1").data, ("Ann").data, ("a@x.com").data, ("h").data⟩]
      = (.err 409 ("Email already registered").data,
        [⟨("1").data, ("Ann").data, ("a@x.com").data, ("h").data⟩]) := by
  refine ⟨⟨by decide, by decide, by decide,
    ⟨⟨("1").data, ("Ann").data, ("a@x.com").data, ("h").data⟩,
      List.mem_singleton.mpr rfl, by decide⟩⟩, ?_⟩
  exact (register_validation_and_conflict (fun p => p) ("2").data
    ("Ann").data ("a@x.com").data ("pw").data
    [⟨("1").data, ("Ann").data, ("a@x.com").data, ("h").data⟩]).2.1
    (by decide) (by decide) (by decide)
    ⟨⟨("1").data, ("Ann").data, ("a@x.com").data, ("h").data⟩,
      List.mem_singleton.mpr rfl, by decide⟩

/-- C10: with a truthy title, creation treats empty-string optional
fields like absent ones — priority defaults to `medium`, due date and
description are stored as absent — and the stored task starts not
completed. -/
theorem create_defaults (uid newId : List Char) (b : CreateBody)
    (s : List TaskRow)
    (ht : truthy b.title = true)
    (hp : b.priority = none ∨ b.priority = some [])
    (hdue : b.dueDate = none ∨ b.dueDate = some none)
    (hde : b.description = none ∨ b.description = some []) :
    ∃ row : TaskRow,
      createTask uid newId b s = (.ok 201 row, s ++ [row]) ∧
      row.priority = ("medium").data ∧
      row.dueDate = none ∧
      row.description = none ∧
      row.completed = false := by
  refine ⟨⟨newId, uid, b.title.getD [],
      if truthy b.description then b.description else none,
      dueOrNull b.dueDate,
      if truthy b.priority then b.priority.getD [] else ("medium").data,
      false⟩, ?_, ?_, ?_, ?_, rfl⟩
  · unfold createTask
    rw [if_neg (by simp [ht])]
  · rcases hp with h | h <;> simp [h, truthy]
  · rcases hdue with h | h <;> simp [h, dueOrNull]
  · rcases hde with h | h <;> simp [h, truthy]

/-- Witness for `create_defaults`: body with title `T` and every
optional field the empty string. -/
theorem create_defaults_witness :
    (truthy (some ("T").data) = true ∧
      (some ([] : List Char) = none ∨ some ([] : List Char) = some []) ∧
      ((some (none : Option Int)) = none ∨ some (none : Option Int) = some none)) ∧
    ∃ row : TaskRow,
      createTask ("u").data ("n").data
          ⟨some ("T").data, some [], some none, some []⟩ []
        = (.ok 201 row, [] ++ [row]) ∧
      row.priority = ("medium").data ∧
      row.dueDate = none ∧
      row.description = none ∧
      row.completed = false := by
  refine ⟨⟨by decide, Or.inr rfl, Or.inr rfl⟩, ?_⟩
  exact create_defaults ("u").data ("n").data
    ⟨some ("T").data, some [], some none, some []⟩ []
    (by decide) (Or.inr rfl) (Or.inr rfl) (Or.inr rfl)

/-- C1 failing input: a task stored with due date day 100 and a PUT
body that only supplies a new title (dueDate omitted).  The update
succeeds with 200 but the stored due date is cleared to absent, not
retained — `due_date = $3::date` has no COALESCE — so the partial-
update contract fails for the due-date field. -/
theorem update_omitted_due_date_clears :
    (⟨("a").data, ("u").data, ("Old").data, none, some 100,
        ("low").data, false⟩ : TaskRow).dueDate = some 100 ∧
    updateTask ("u").data ("a").data
        ⟨some ("New").data, none, none, none, none⟩
        [⟨("a").data, ("u").data, ("Old").data, none, some 100,
          ("low").data, false⟩]
      = (.ok 200 ⟨("a").data, ("u").data, ("New").data, none, none,
          ("low").data, false⟩,
        [⟨("a").data, ("u").data, ("New").data, none, none,
          ("low").data, false⟩]) ∧
    (updateTask ("u").data ("a").data
        ⟨none, none, some none, none, none⟩
        [⟨("a").data, ("u").data, ("Old").data, none, some 100,
          ("low").data, false⟩]).2
      = [⟨("a").data, ("u").data, ("Old").data, none, none,
          ("low").data, false⟩] := by
  refine ⟨rfl, by decide, by decide⟩

theorem ne_nil_of_jsTrim_ne_nil (q : List Char) (h : jsTrim q ≠ []) :
    q ≠ [] := by
  intro hq
  subst hq
  exact h rfl

/-- C9: the search filter keeps exactly the tasks whose lowercased
title or description contains the lowercased query; an empty or
whitespace-only query keeps the whole list unchanged; and the result
only depends on the query up to letter case. -/
theorem search_filter_spec (tasks : List CTask) (q : List Char) :
    (jsTrim q = [] → searchFilterTasks q tasks = tasks) ∧
    (jsTrim q ≠ [] → ∀ t : CTask,
      t ∈ searchFilterTasks q tasks ↔
        t ∈ tasks ∧
          (containsL (jsToLower q) (jsToLower t.title) = true ∨
            ∃ d, t.description = some d ∧
              containsL (jsToLower q) (jsToLower d) = true)) ∧
    (∀ q' : List Char, jsToLower q = jsToLower q' →
      searchFilterTasks q tasks = searchFilterTasks q' tasks) := by
  refine ⟨?_, ?_, ?_⟩
  · intro h
    unfold searchFilterTasks
    rw [List.filter_eq_self]
    intro t _
    rw [if_neg (by simp [h])]
  · intro h t
    have hq : q ≠ [] := ne_nil_of_jsTrim_ne_nil q h
    have hqlow : jsToLower q ≠ [] := by
      intro hl
      exact hq ((jsToLower_nil_iff q).mp hl)
    unfold searchFilterTasks
    rw [List.mem_filter]
    rw [if_pos h]
    simp only [Bool.or_eq_true]
    constructor
    · rintro ⟨hmem, hor⟩
      refine ⟨hmem, ?_⟩
      rcases hor with hl | hr
      · exact Or.inl hl
      · match hd : t.description with
        | none => rw [hd] at hr; exact absurd hr (by simp)
        | some d =>
          rw [hd] at hr
          simp only [Bool.and_eq_true] at hr
          exact Or.inr ⟨d, rfl, hr.2⟩
    · rintro ⟨hmem, hor⟩
      refine ⟨hmem, ?_⟩
      rcases hor with hl | ⟨d, hd, hc⟩
      · exact Or.inl hl
      · right
        rw [hd]
        simp only [Bool.and_eq_true]
        refine ⟨?_, hc⟩
        by_cases hnil : d = []
        · exfalso
          rw [hnil] at hc
          rw [show jsToLower ([] : List Char) = [] from rfl,
            containsL_nil _ hqlow] at hc
          exact absurd hc (by simp)
        · simp [List.isEmpty_iff, hnil]
  · intro q' hl
    by_cases hq : jsTrim q = []
    · have hq' : jsTrim q' = [] := jsTrim_lower_nil q q' hl hq
      unfold searchFilterTasks
      apply List.filter_congr
      intro t _
      rw [if_neg (by simp [hq]), if_neg (by simp [hq'])]
    · have hq' : jsTrim q' ≠ [] := by
        intro hq'0
        exact hq (jsTrim_lower_nil q' q hl.symm hq'0)
      unfold searchFilterTasks
      apply List.filter_congr
      intro t _
      rw [if_pos hq, if_pos hq']
      simp only [hl]

/-- Witness for `search_filter_spec`: a whitespace query keeps the
one-task list, the query `Ab` matches the title `xAby`, and queries
`Ab` / `aB` give the same result. -/
theorem search_filter_spec_witness :
    (jsTrim (" ").data = [] ∧
      searchFilterTasks (" ").data
        [⟨("1").data, ("xAby").data, none, none, ("low").data, false⟩]
      = [⟨("1").data, ("xAby").data, none, none, ("low").data, false⟩]) ∧
    (jsTrim ("Ab").data ≠ [] ∧
      ((⟨("1").data, ("xAby").data, none, none, ("low").data, false⟩ : CTask)
          ∈ searchFilterTasks ("Ab").data
            [⟨("1").data, ("xAby").data, none, none, ("low").data, false⟩] ↔
        (⟨("1").data, ("xAby").data, none, none, ("low").data, false⟩ : CTask)
          ∈ [(⟨("1").data, ("xAby").data, none, none, ("low").data, false⟩ : CTask)] ∧
          (containsL (jsToLower ("Ab").data)
              (jsToLower ("xAby").data) = true ∨
            ∃ d, (none : Option (List Char)) = some d ∧
              containsL (jsToLower ("Ab").data) (jsToLower d) = true))) ∧
    (jsToLower ("Ab").data = jsToLower ("aB").data ∧
      searchFilterTasks ("Ab").data
        [⟨("1").data, ("xAby").data, none, none, ("low").data, false⟩]
      = searchFilterTasks ("aB").data
        [⟨("1").data, ("xAby").data, none, none, ("low").data, false⟩]) := by
  refine ⟨⟨by decide, ?_⟩, ⟨by decide, ?_⟩, ⟨by decide, ?_⟩⟩
  · exact (search_filter_spec
      [⟨("1").data, ("xAby").data, none, none, ("low").data, false⟩]
      (" ").data).1 (by decide)
  · exact (search_filter_spec
      [⟨("1").data, ("xAby").data, none, none, ("low").data, false⟩]
      ("Ab").data).2.1 (by decide)
      ⟨("1").data, ("xAby").data, none, none, ("low").data, false⟩
  · exact (search_filter_spec
      [⟨("1").data, ("xAby").data, none, none, ("low").data, false⟩]
      ("Ab").data).2.2 ("aB").data (by decide)

theorem dueLe_refl (a : CTask) : dueLe a a = true := by
  unfold dueLe
  rcases a.dueDate with _ | x <;> simp

theorem dueLe_total (a b : CTask) : dueLe a b || dueLe b a := by
  unfold dueLe
  rcases a.dueDate with _ | x <;> rcases b.dueDate with _ | y <;> simp <;> omega

theorem dueLe_trans (a b c : CTask) (h1 : dueLe a b) (h2 : dueLe b c) :
    dueLe a c := by
  unfold dueLe at h1 h2 ⊢
  cases hda : a.dueDate <;> cases hdb : b.dueDate <;> cases hdc : c.dueDate <;>
    simp_all <;> omega

/-- C8 counterexample: a single pending task whose due date
(2020-01-01) is strictly before today (2026-10-12) is selected as
`nextDueTask` — the code never compares due dates against today. -/
theorem nextdue_counterexample :
    daysFromCivil 2020 1 1 < daysFromCivil 2026 10 12 ∧
    (⟨("a").data, ("T").data, none, some (daysFromCivil 2020 1 1),
        ("low").data, false⟩ : CTask).completed = false ∧
    nextDueTask [⟨("a").data, ("T").data, none,
        some (daysFromCivil 2020 1 1), ("low").data, false⟩]
      = some ⟨("a").data, ("T").data, none,
          some (daysFromCivil 2020 1 1), ("low").data, false⟩ := by
  refine ⟨by decide, rfl, ?_⟩
  unfold nextDueTask
  rw [show List.filter (fun t => t.dueDate.isSome && !t.completed)
      [(⟨("a").data, ("T").data, none, some (daysFromCivil 2020 1 1),
        ("low").data, false⟩ : CTask)]
    = [⟨("a").data, ("T").data, none, some (daysFromCivil 2020 1 1),
        ("low").data, false⟩] from by decide]
  rw [List.mergeSort_singleton]
  rfl

/-- C8 (amended): the dashboard `dueToday` statistic counts exactly
the pending tasks whose due date equals today's local date, and
`nextDueTask` is a pending task with a due date whose due date is
earliest among all pending tasks with a due date — with no comparison
against today, so past-due pending tasks are eligible. -/
theorem dashboard_due_stats (todayN : Int) (tasks : List CTask) :
    dueTodayCount todayN tasks =
      (tasks.filter (fun t =>
        decide (t.completed = false ∧ t.dueDate = some todayN))).length ∧
    (∀ t : CTask, nextDueTask tasks = some t →
      t ∈ tasks ∧ t.completed = false ∧ t.dueDate.isSome = true ∧
      ∀ u ∈ tasks, u.completed = false → u.dueDate.isSome = true →
        dueLe t u = true) := by
  constructor
  · unfold dueTodayCount
    congr 1
    apply List.filter_congr
    intro t _
    rcases hdd : t.dueDate with _ | dueN <;>
      rcases hc : t.completed <;> simp [hdd, hc] <;>
      by_cases h : dueN = todayN <;> simp [h]
  · intro t hnd
    unfold nextDueTask at hnd
    have hsorted := List.sorted_mergeSort dueLe_trans dueLe_total
      (tasks.filter (fun t => t.dueDate.isSome && !t.completed))
    match hms : List.mergeSort
        (tasks.filter (fun t => t.dueDate.isSome && !t.completed)) dueLe with
    | [] =>
      rw [hms] at hnd
      exact absurd hnd (by simp)
    | a :: rest =>
      rw [hms] at hnd
      have hat : a = t := by simpa using hnd
      subst hat
      rw [hms] at hsorted
      have hpair := (List.pairwise_cons.mp hsorted).1
      have hmem : a ∈ tasks.filter (fun t => t.dueDate.isSome && !t.completed) := by
        rw [← @List.mem_mergeSort _ dueLe _ _, hms]
        exact List.mem_cons_self a rest
      have hprops := List.mem_filter.mp hmem
      have hflags := hprops.2
      simp only [Bool.and_eq_true, Bool.not_eq_true'] at hflags
      refine ⟨hprops.1, hflags.2, hflags.1, ?_⟩
      intro u hu hupend hudue
      have humem : u ∈ tasks.filter (fun t => t.dueDate.isSome && !t.completed) :=
        List.mem_filter.mpr ⟨hu, by simp [hupend, hudue]⟩
      have : u ∈ a :: rest := by
        rw [← hms]
        exact (@List.mem_mergeSort _ dueLe _ _).mpr humem
      rcases List.mem_cons.mp this with rfl | hurest
      · exact dueLe_refl u
      · exact hpair u hurest

/-- Witness for `dashboard_due_stats`: the pending task is selected by
`nextDueTask` and is due no later than every pending dated task. -/
theorem dashboard_due_stats_witness :
    nextDueTask [⟨("a").data, ("A").data, none, some 7, ("low").data, true⟩,
        ⟨("b").data, ("B").data, none, some 3, ("low").data, false⟩]
      = some ⟨("b").data, ("B").data, none, some 3, ("low").data, false⟩ ∧
    (⟨("b").data, ("B").data, none, some 3, ("low").data, false⟩ : CTask)
      ∈ [⟨("a").data, ("A").data, none, some 7, ("low").data, true⟩,
        ⟨("b").data, ("B").data, none, some 3, ("low").data, false⟩] ∧
    ∀ u ∈ [(⟨("a").data, ("A").data, none, some 7, ("low").data, true⟩ : CTask),
        ⟨("b").data, ("B").data, none, some 3, ("low").data, false⟩],
      u.completed = false → u.dueDate.isSome = true →
      dueLe ⟨("b").data, ("B").data, none, some 3, ("low").data, false⟩ u = true := by
  have hnd : nextDueTask
      [⟨("a").data, ("A").data, none, some 7, ("low").data, true⟩,
        ⟨("b").data, ("B").data, none, some 3, ("low").data, false⟩]
      = some ⟨("b").data, ("B").data, none, some 3, ("low").data, false⟩ := by
    unfold nextDueTask
    rw [show List.filter (fun t => t.dueDate.isSome && !t.completed)
        [(⟨("a").data, ("A").data, none, some 7, ("low").data, true⟩ : CTask),
          ⟨("b").data, ("B").data, none, some 3, ("low").data, false⟩]
      = [⟨("b").data, ("B").data, none, some 3, ("low").data, false⟩] from by decide]
    rw [List.mergeSort_singleton]
    rfl
  have h := (dashboard_due_stats 0
    [⟨("a").data, ("A").data, none, some 7, ("low").data, true⟩,
      ⟨("b").data, ("B").data, none, some 3, ("low").data, false⟩]).2
    ⟨("b").data, ("B").data, none, some 3, ("low").data, false⟩ hnd
  exact ⟨hnd, h.1, h.2.2.2⟩
